import Mathlib

/-!
Verification development for the damage-tracking subsystem
(`flow/damage_context.h`, `flow/damage_context.cc`).

The embedding mirrors the source code:
* Skia rectangles are modelled with integer coordinates (`Int` fields in the
  same `left/top/right/bottom` layout); on integral coordinates
  `SkRect::roundOut` is the identity embedding into `SkIRect`.
* A `Layer*` is modelled by an identifier (`Nat`); pointer equality becomes
  equality of identifiers.
* A `LayerComparator` function pointer is modelled by an identifier (`Nat`);
  the comparison it performs is looked up in an environment
  `γ : Nat → Nat → Nat → Bool` (comparator id, first layer, second layer).
  Function-pointer identity comparison becomes identifier equality.
* A `MutatorNode` chain is modelled as a `List Nat` of mutator values;
  `compare_mutators` walks both chains pairwise, which is list equality.
* `std::unordered_set<LayerContribution, Hash>` is modelled as a list with
  insertion guarded by the set's equality predicate (the hash only routes
  lookups; semantically the container is keyed by `operator==`).
* The delegate objects' `OnReportAdditionalDamage` callbacks are modelled by
  an environment `δ : Nat → SkRect → SkRect` (delegate id, current total
  damage bounds).  The `do/while` convergence loop of `FinishDelegates` gets
  explicit fuel since the source loop has no iteration bound.
* The inner backward scan of the reordering pass in `FinishFrame` can run
  past the start of the vector when no equivalent element remains (undefined
  behaviour in the source); the model returns `none` in exactly that case,
  so `FinishFrame` produces `Option`.
-/

/-- Axis-aligned rectangle with real-valued coordinates in the source
(`SkRect`), modelled with integer coordinates. -/
structure SkRect where
  left : Int
  top : Int
  right : Int
  bottom : Int
deriving DecidableEq

/-- Axis-aligned rectangle with integer coordinates (`SkIRect`). -/
structure SkIRect where
  left : Int
  top : Int
  right : Int
  bottom : Int
deriving DecidableEq

/-- Integer size (`SkISize`). -/
structure SkISize where
  width : Int
  height : Int
deriving DecidableEq

def SkRect.MakeEmpty : SkRect := ⟨0, 0, 0, 0⟩

def SkRect.MakeIWH (w h : Int) : SkRect := ⟨0, 0, w, h⟩

/-- `SkRect::isEmpty`: a rect is empty unless `left < right` and
`top < bottom`. -/
def SkRect.isEmpty (r : SkRect) : Bool :=
  decide (r.right ≤ r.left) || decide (r.bottom ≤ r.top)

/-- `SkRect::intersect(r)`: replace `this` by the intersection when it is
non-empty, otherwise leave `this` unchanged (the source ignores the returned
`bool`). -/
def SkRect.intersectOr (a b : SkRect) : SkRect :=
  let L := max a.left b.left
  let T := max a.top b.top
  let R := min a.right b.right
  let B := min a.bottom b.bottom
  if L < R ∧ T < B then ⟨L, T, R, B⟩ else a

/-- `SkRect::intersects(r)`: true iff the intersection is non-empty. -/
def SkRect.intersects (a b : SkRect) : Bool :=
  decide (max a.left b.left < min a.right b.right) &&
  decide (max a.top b.top < min a.bottom b.bottom)

/-- `SkRect::roundOut`: identity on integral coordinates. -/
def SkRect.roundOut (r : SkRect) : SkIRect := ⟨r.left, r.top, r.right, r.bottom⟩

def SkIRect.MakeEmpty : SkIRect := ⟨0, 0, 0, 0⟩

/-- `SkIRect::isEmpty`. -/
def SkIRect.isEmpty (r : SkIRect) : Bool :=
  decide (r.right ≤ r.left) || decide (r.bottom ≤ r.top)

/-- `SkIRect::join(r)`: no-op when `r` is empty, otherwise replace an empty
accumulator by `r`, otherwise take the bounding box of both. -/
def SkIRect.join (a b : SkIRect) : SkIRect :=
  if b.isEmpty then a
  else if a.isEmpty then b
  else ⟨min a.left b.left, min a.top b.top, max a.right b.right,
        max a.bottom b.bottom⟩

/-- `SkRect::Make(SkIRect)`. -/
def SkRect.ofIRect (a : SkIRect) : SkRect := ⟨a.left, a.top, a.right, a.bottom⟩

/-- Region containment for rectangles: `b`, viewed as a set of points, is
contained in `a`. -/
def SkIRect.containsR (a b : SkIRect) : Bool :=
  b.isEmpty ||
  (decide (a.left ≤ b.left) && decide (a.top ≤ b.top) &&
   decide (b.right ≤ a.right) && decide (b.bottom ≤ a.bottom))

/-- `SkISize::isEmpty`. -/
def SkISize.isEmpty (s : SkISize) : Bool :=
  decide (s.width ≤ 0) || decide (s.height ≤ 0)

/-- `DamageArea::AddRect(const SkRect&)`: round out, then join into the
accumulated bounds. -/
def DamageArea.add (bounds : SkIRect) (rect : SkRect) : SkIRect :=
  SkIRect.join bounds rect.roundOut

/-- `DamageContext::DamageSource`. -/
inductive DamageSource where
  | kThisFrame
  | kPreviousFrame
deriving DecidableEq

/-- `DamageContext::LayerContribution`.  `layer` is the layer identity
(shared pointer target), `comparator` the function-pointer identity.
`paint_order` is uninitialised in the source until `FinishFrame` assigns it;
the model defaults it to `0` (it is never read before assignment, and the
equality predicate below ignores it, as in the source). -/
structure LayerContribution where
  paint_bounds : SkRect
  layer : Nat
  comparator : Nat
  mutator_node : List Nat
  paint_order : Int
deriving DecidableEq

/-- `DamageContext::LayerContribution::Hash::operator()`: fold the four
bounds fields and the comparator pointer with factor 37 in `size_t`
arithmetic.  Stepwise wraparound is congruent to a single final reduction
mod `2^64`.  (The source converts float fields to `size_t`; coordinates are
integer-modelled here.) -/
def LayerContribution.hash (e : LayerContribution) : Int :=
  (((((e.paint_bounds.left * 37 + e.paint_bounds.top) * 37 +
      (e.paint_bounds.right - e.paint_bounds.left)) * 37 +
     (e.paint_bounds.bottom - e.paint_bounds.top)) * 37 +
    (e.comparator : Int))).emod (2 ^ 64)

/-- Anonymous-namespace `compare_mutators`: walks two mutator chains node by
node comparing values (pointer equality is only a shortcut), i.e. list
equality. -/
def compare_mutators (m1 m2 : List Nat) : Bool := m1 == m2

/-- `DamageContext::LayerContribution::operator==` under comparator
environment `γ`: comparator pointers equal, bounds bit-identical, mutator
chains equal, and the layers are the same object or comparator-equal. -/
def lcEq (γ : Nat → Nat → Nat → Bool) (a b : LayerContribution) : Bool :=
  decide (a.comparator = b.comparator) &&
  decide (a.paint_bounds = b.paint_bounds) &&
  compare_mutators a.mutator_node b.mutator_node &&
  (decide (a.layer = b.layer) || γ a.comparator a.layer b.layer)

/-- `DamageContext::FrameDescription`. -/
structure FrameDescription where
  layer_tree_size : SkISize
  entries : List LayerContribution
deriving DecidableEq

/-- `DamageContext::DelegateRecord`.  The delegate object is modelled by an
identifier resolved through the delegate environment `δ`. -/
structure DelegateRecord where
  delegate : Nat
  paint_order : Int
  reported_damage : SkRect
deriving DecidableEq

/-- Mutable state of `DamageContext`. -/
structure DamageContext where
  previous_frame : Option FrameDescription := none
  current_layer_tree_size : SkISize := ⟨0, 0⟩
  layer_entries : List LayerContribution := []
  delegates : List DelegateRecord := []
deriving DecidableEq

def DamageContext.initial : DamageContext := {}

/-- `DamageContext::LayerContributionHandle`: back-pointer presence, index
(`size_t(-1)` null sentinel, read back as `int`), stored matrix. -/
structure LayerContributionHandle where
  context : Bool
  index : Int
  matrix : SkRect → SkRect

/-- Default-constructed (null) handle. -/
def LayerContributionHandle.null : LayerContributionHandle :=
  ⟨false, -1, fun r => r⟩

/-- `LayerContributionHandle::PaintOrder()`: `static_cast<int>(index_)`. -/
def LayerContributionHandle.PaintOrder (h : LayerContributionHandle) : Int :=
  h.index

/-- The parts of `PrerollContext` consumed by `AddLayerContribution`. -/
structure PrerollContext where
  cull_rect : SkRect
  mutators_stack : List Nat

/-- `DamageContext::InitFrame`: stores the size and the previous-frame
reference and clears the delegate list.  (It does not touch
`layer_entries_`, exactly as in the source.) -/
def DamageContext.InitFrame (s : DamageContext) (tree_size : SkISize)
    (previous_frame : Option FrameDescription) : DamageContext :=
  { s with current_layer_tree_size := tree_size,
           previous_frame := previous_frame,
           delegates := [] }

/-- `DamageContext::AddLayerContribution` (the overload taking explicit
paint bounds): skip with a null handle when the current size is empty;
otherwise intersect the bounds with the cull rect, map through the matrix,
record the bottom of the mutator stack, and append. -/
def DamageContext.AddLayerContribution (s : DamageContext) (layer : Nat)
    (comparator : Nat) (matrix : SkRect → SkRect) (paint_bounds : SkRect)
    (preroll : PrerollContext) : LayerContributionHandle × DamageContext :=
  if s.current_layer_tree_size.isEmpty then (LayerContributionHandle.null, s)
  else
    let bounds := paint_bounds.intersectOr preroll.cull_rect
    let e : LayerContribution :=
      { paint_bounds := matrix bounds, layer := layer,
        comparator := comparator, mutator_node := preroll.mutators_stack,
        paint_order := 0 }
    (⟨true, Int.ofNat s.layer_entries.length, matrix⟩,
     { s with layer_entries := s.layer_entries ++ [e] })

/-- `LayerContributionHandle::AddDelegate` (requires a valid handle). -/
def DamageContext.AddDelegate (s : DamageContext)
    (h : LayerContributionHandle) (delegate : Nat) : DamageContext :=
  if h.context && decide (h.index ≠ -1) then
    { s with delegates := s.delegates ++ [⟨delegate, h.index, SkRect.MakeEmpty⟩] }
  else s

/-- `unordered_set::find` with key `key` over stored elements `stored`:
first stored element equal to the key (predicate applied as
`eq(key, stored)`). -/
def findLC (γ : Nat → Nat → Nat → Bool) (stored : List LayerContribution)
    (key : LayerContribution) : Option LayerContribution :=
  stored.find? (fun x => lcEq γ key x)

/-- `unordered_set::insert`: keep the set unchanged when an equal element is
already present, otherwise add the new element. -/
def insertLC (γ : Nat → Nat → Nat → Bool) (l : List LayerContribution)
    (e : LayerContribution) : List LayerContribution :=
  if l.any (fun x => lcEq γ e x) then l else l ++ [e]

/-- The snapshot-building loop at the top of `FinishFrame`: walk
`layer_entries_` with index `i`, skip empty-bounds entries, assign
`paint_order = i` to the rest and insert into the set. -/
def buildEntries (γ : Nat → Nat → Nat → Bool) :
    Nat → List LayerContribution → List LayerContribution →
    List LayerContribution
  | _, acc, [] => acc
  | i, acc, e :: rest =>
    buildEntries γ (i + 1)
      (if e.paint_bounds.isEmpty then acc
       else insertLC γ acc { e with paint_order := Int.ofNat i }) rest

/-- One damage-rectangle addition (`AddDamageRect` call): the rect, its
source and the paint order reported to delegates. -/
structure DamageEvent where
  rect : SkRect
  source : DamageSource
  paint_order : Int
deriving DecidableEq

/-- First diff loop of `FinishFrame`: for each current entry, either emit a
this-frame damage event (no equivalent in the previous snapshot) or push
the pair onto the matching lists. -/
def diffStep (γ : Nat → Nat → Nat → Bool)
    (pfEntries : List LayerContribution) :
    List LayerContribution →
    List DamageEvent × List LayerContribution × List LayerContribution
  | [] => ([], [], [])
  | l :: rest =>
    let r := diffStep γ pfEntries rest
    match findLC γ pfEntries l with
    | none => (⟨l.paint_bounds, DamageSource.kThisFrame, l.paint_order⟩ :: r.1,
               r.2.1, r.2.2)
    | some p => (r.1, p :: r.2.1, l :: r.2.2)

/-- Second diff loop of `FinishFrame`: previous-frame entries with no
equivalent in the current set emit previous-frame damage events. -/
def prevUnmatched (γ : Nat → Nat → Nat → Bool)
    (entries : List LayerContribution) :
    List LayerContribution → List DamageEvent
  | [] => []
  | p :: rest =>
    match findLC γ entries p with
    | none => ⟨p.paint_bounds, DamageSource.kPreviousFrame, p.paint_order⟩ ::
              prevUnmatched γ entries rest
    | some _ => prevUnmatched γ entries rest

/-- Insertion step for sorting by `paint_order` (the `std::sort` comparator
`l1->paint_order < l2->paint_order`). -/
def insertPO (e : LayerContribution) :
    List LayerContribution → List LayerContribution
  | [] => [e]
  | x :: xs =>
    if e.paint_order ≤ x.paint_order then e :: x :: xs else x :: insertPO e xs

/-- Sort by `paint_order`. -/
def sortByPO (l : List LayerContribution) : List LayerContribution :=
  l.foldr insertPO []

/-- Inner backward scan of the reordering pass, over the suffix of
`matching_current` in reverse (head = trailing element).  Walks toward the
front, emitting a damage-event pair for every intersecting mismatched
element, until an element equivalent to `p` is found and removed; `none`
models the scan running past the start of the vector (undefined behaviour
in the source). -/
def scanCur (γ : Nat → Nat → Nat → Bool) (p : LayerContribution) :
    List LayerContribution →
    Option (List DamageEvent × List LayerContribution)
  | [] => none
  | c :: rest =>
    if lcEq γ p c then some ([], rest)
    else
      let evs := if p.paint_bounds.intersects c.paint_bounds then
          [⟨p.paint_bounds, DamageSource.kPreviousFrame, p.paint_order⟩,
           ⟨c.paint_bounds, DamageSource.kThisFrame, c.paint_order⟩]
        else []
      match scanCur γ p rest with
      | none => none
      | some (evs2, rest2) => some (evs ++ evs2, c :: rest2)

/-- Outer loop of the reordering pass, over both sorted matching lists in
reverse (head = trailing element): repeatedly scan for the element of
`matching_current` equivalent to the trailing element of
`matching_previous`, then erase both. -/
def reorderLoop (γ : Nat → Nat → Nat → Bool) :
    List LayerContribution → List LayerContribution →
    Option (List DamageEvent)
  | [], _ => some []
  | p :: ps, cs =>
    match scanCur γ p cs with
    | none => none
    | some (evs, cs2) =>
      match reorderLoop γ ps cs2 with
      | none => none
      | some evs2 => some (evs ++ evs2)

/-- The per-layer diffing of `FinishFrame` (previous snapshot present with
matching size): set difference in both directions, then the reordering
pass over the matched records sorted by paint order. -/
def diffEvents (γ : Nat → Nat → Nat → Bool)
    (entries pfEntries : List LayerContribution) :
    Option (List DamageEvent) :=
  match reorderLoop γ
      (sortByPO (diffStep γ pfEntries entries).2.1).reverse
      (sortByPO (diffStep γ pfEntries entries).2.2).reverse with
  | none => none
  | some revs =>
    some ((diffStep γ pfEntries entries).1 ++
      prevUnmatched γ entries pfEntries ++ revs)

/-- The full-frame invalidation event: the whole output rectangle, source
this-frame, paint order `-1`. -/
def fullFrameEvent (sz : SkISize) : DamageEvent :=
  ⟨SkRect.MakeIWH sz.width sz.height, DamageSource.kThisFrame, -1⟩

/-- One pass of the `FinishDelegates` `do/while` body: query each delegate
with the current total damage bounds; when its report changed, grow the
area and clear the all-good flag. -/
def delegatePass (δ : Nat → SkRect → SkRect) :
    List DelegateRecord → SkIRect → Bool →
    List DelegateRecord × SkIRect × Bool
  | [], area, good => ([], area, good)
  | d :: ds, area, good =>
    let reported := δ d.delegate (SkRect.ofIRect area)
    if reported = d.reported_damage then
      let r := delegatePass δ ds area good
      (d :: r.1, r.2)
    else
      let r := delegatePass δ ds (DamageArea.add area reported) false
      ({ d with reported_damage := reported } :: r.1, r.2)

/-- `DamageContext::FinishDelegates`: iterate `delegatePass` until a pass
reports no change; `fuel` bounds the iteration (the source loop is
unbounded). -/
def finishDelegates (δ : Nat → SkRect → SkRect) :
    Nat → List DelegateRecord → SkIRect → List DelegateRecord × SkIRect
  | 0, ds, area => (ds, area)
  | Nat.succ fuel, ds, area =>
    match delegatePass δ ds area true with
    | (ds2, area2, true) => (ds2, area2)
    | (ds2, area2, false) => finishDelegates δ fuel ds2 area2

/-- `DamageContext::DamageResult`, extended with the trace of
`AddDamageRect` calls made during the structural phase (each call both
joins the area and notifies delegates). -/
structure DamageResult where
  trace : List DamageEvent
  area : SkIRect
  frame_description : FrameDescription
deriving DecidableEq

/-- The sequence of `AddDamageRect` calls made by the structural phase of
`FinishFrame`: either the single full-frame invalidation (no previous
snapshot, or a size mismatch) or the per-layer diff events. -/
def frameEvents (γ : Nat → Nat → Nat → Bool) (s : DamageContext) :
    Option (List DamageEvent) :=
  match s.previous_frame with
  | none => some [fullFrameEvent s.current_layer_tree_size]
  | some pf =>
    if pf.layer_tree_size = s.current_layer_tree_size then
      diffEvents γ (buildEntries γ 0 [] s.layer_entries) pf.entries
    else some [fullFrameEvent s.current_layer_tree_size]

/-- `DamageContext::FinishFrame`: build the snapshot set, emit either the
full-frame invalidation (no usable history) or the per-layer diff events,
accumulate them into the damage area, run delegate convergence, and reset
all per-frame state.  `none` models the undefined behaviour of the
reordering scan running past the start. -/
def FinishFrame (γ : Nat → Nat → Nat → Bool) (δ : Nat → SkRect → SkRect)
    (fuel : Nat) (s : DamageContext) :
    Option (DamageResult × DamageContext) :=
  match frameEvents γ s with
  | none => none
  | some evs =>
    some ({ trace := evs,
            area := (finishDelegates δ fuel s.delegates
              (evs.foldl (fun a e => DamageArea.add a e.rect)
                SkIRect.MakeEmpty)).2,
            frame_description := { layer_tree_size := s.current_layer_tree_size,
                                   entries := buildEntries γ 0 []
                                     s.layer_entries } },
          { previous_frame := none, current_layer_tree_size := ⟨0, 0⟩,
            layer_entries := [], delegates := [] })

/-- One `append` call of the external protocol, bundled. -/
structure AppendArgs where
  layer : Nat
  comparator : Nat
  matrix : SkRect → SkRect
  paint_bounds : SkRect
  preroll : PrerollContext

/-- Perform one `append`, keeping only the state. -/
def applyAppend (s : DamageContext) (a : AppendArgs) : DamageContext :=
  (s.AddLayerContribution a.layer a.comparator a.matrix a.paint_bounds
    a.preroll).2

/-- One full frame of the external protocol:
`init`, a sequence of `append`s, then `finish`. -/
def runFrame (γ : Nat → Nat → Nat → Bool) (δ : Nat → SkRect → SkRect)
    (fuel : Nat) (sz : SkISize) (apps : List AppendArgs)
    (prev : Option FrameDescription) (s0 : DamageContext) :
    Option (DamageResult × DamageContext) :=
  FinishFrame γ δ fuel (apps.foldl applyAppend (s0.InitFrame sz prev))

/-- Two consecutive frames with the same output size, the second fed the
first frame's snapshot; yields the second frame's damage bounds. -/
def twoFrames (γ : Nat → Nat → Nat → Bool) (δ : Nat → SkRect → SkRect)
    (sz : SkISize) (apps1 apps2 : List AppendArgs) : Option SkIRect :=
  (runFrame γ δ 1 sz apps1 none DamageContext.initial).bind fun r1 =>
    (runFrame γ δ 1 sz apps2 (some r1.1.frame_description) r1.2).map
      fun r2 => r2.1.area

/-! ## Shared fixtures for concrete instances -/

/-- Comparator environment in which every comparator compares layer
identities. -/
def gId : Nat → Nat → Nat → Bool := fun _ l1 l2 => l1 == l2

/-- Comparator environment in which every comparator accepts every pair. -/
def gAll : Nat → Nat → Nat → Bool := fun _ _ _ => true

/-- Delegate environment in which every delegate reports no additional
damage. -/
def dZero : Nat → SkRect → SkRect := fun _ _ => SkRect.MakeEmpty

/-- An `append` with identity transform, a wide-open cull rect, comparator
`0` and no mutators. -/
def mkApp (layer : Nat) (pb : SkRect) : AppendArgs :=
  ⟨layer, 0, fun r => r, pb, ⟨⟨-1000, -1000, 1000, 1000⟩, []⟩⟩

/-- Concrete frame state: size `10 × 10`, no history, one empty-bounds
append followed by one `[0,0,5,5]` append. -/
def stateC5 : DamageContext :=
  [mkApp 3 ⟨0, 0, 0, 0⟩, mkApp 1 ⟨0, 0, 5, 5⟩].foldl applyAppend
    (DamageContext.initial.InitFrame ⟨10, 10⟩ none)

/-- The `FinishFrame` result on `stateC5`: full-frame damage (no history)
and a snapshot retaining the single non-empty record with paint order 1. -/
def resultC5 : DamageResult :=
  { trace := [fullFrameEvent ⟨10, 10⟩], area := ⟨0, 0, 10, 10⟩,
    frame_description := { layer_tree_size := ⟨10, 10⟩,
                           entries := [⟨⟨0, 0, 5, 5⟩, 1, 0, [], 1⟩] } }

/-- Concrete previous frame: size `10 × 10` with one record of bounds
`[1,1,4,4]`. -/
def pfC3 : FrameDescription := ⟨⟨10, 10⟩, [⟨⟨1, 1, 4, 4⟩, 2, 0, [], 0⟩]⟩

/-- Concrete finishing state: history `pfC3`, same size, no appends. -/
def stateC3 : DamageContext :=
  { previous_frame := some pfC3, current_layer_tree_size := ⟨10, 10⟩,
    layer_entries := [], delegates := [] }

/-- The `FinishFrame` result on `stateC3`: the removed layer's bounds are
damaged with source previous-frame. -/
def resultC3 : DamageResult :=
  { trace := [⟨⟨1, 1, 4, 4⟩, DamageSource.kPreviousFrame, 0⟩],
    area := ⟨1, 1, 4, 4⟩,
    frame_description := { layer_tree_size := ⟨10, 10⟩, entries := [] } }

/-- A concrete contribution record with bounds `[0,0,4,4]`. -/
def lcC10 : LayerContribution := ⟨⟨0, 0, 4, 4⟩, 1, 0, [], 0⟩

/-- Concrete finishing state holding the same record twice. -/
def stateC10 : DamageContext :=
  { previous_frame := none, current_layer_tree_size := ⟨10, 10⟩,
    layer_entries := [lcC10, lcC10], delegates := [] }

/-- The `FinishFrame` result on `stateC10`: the snapshot keeps one record of
the duplicated equivalence class. -/
def resultC10 : DamageResult :=
  { trace := [fullFrameEvent ⟨10, 10⟩], area := ⟨0, 0, 10, 10⟩,
    frame_description := { layer_tree_size := ⟨10, 10⟩, entries := [lcC10] } }

/-! ## Basic lemmas about the embedding -/

/-- `LayerContribution::operator==` is reflexive: the identity shortcut on
the layer pointer fires. -/
theorem lcEq_refl (γ : Nat → Nat → Nat → Bool) (e : LayerContribution) :
    lcEq γ e e = true := by
  simp [lcEq, compare_mutators]

/-- `lcEq` never inspects `paint_order`. -/
theorem lcEq_paint_order (γ : Nat → Nat → Nat → Bool)
    (a b : LayerContribution) (n : Int) :
    lcEq γ a { b with paint_order := n } = lcEq γ a b := rfl

theorem SkIRect.isEmpty_iff (a : SkIRect) :
    a.isEmpty = true ↔ a.right ≤ a.left ∨ a.bottom ≤ a.top := by
  simp [SkIRect.isEmpty]

theorem SkIRect.containsR_iff (a b : SkIRect) :
    a.containsR b = true ↔
      (b.right ≤ b.left ∨ b.bottom ≤ b.top) ∨
      (a.left ≤ b.left ∧ a.top ≤ b.top ∧ b.right ≤ a.right ∧
       b.bottom ≤ a.bottom) := by
  simp [SkIRect.containsR, SkIRect.isEmpty, and_assoc]

/-- Containment is reflexive. -/
theorem SkIRect.containsR_self (a : SkIRect) : a.containsR a = true := by
  rw [SkIRect.containsR_iff]
  omega

/-- An empty rectangle is contained in anything. -/
theorem SkIRect.containsR_of_empty (a b : SkIRect) (h : b.isEmpty = true) :
    a.containsR b = true := by
  rw [SkIRect.containsR_iff]
  exact Or.inl ((SkIRect.isEmpty_iff b).mp h)

/-- The join contains its right argument. -/
theorem SkIRect.containsR_join_right (a b : SkIRect) :
    (SkIRect.join a b).containsR b = true := by
  unfold SkIRect.join
  split
  · rw [SkIRect.containsR_iff]
    left
    exact (SkIRect.isEmpty_iff b).mp (by assumption)
  · split
    · rw [SkIRect.containsR_iff]
      right
      exact ⟨le_refl _, le_refl _, le_refl _, le_refl _⟩
    · rw [SkIRect.containsR_iff]
      right
      exact ⟨inf_le_right, inf_le_right, le_sup_right, le_sup_right⟩

/-- Joining preserves containment of anything already contained. -/
theorem SkIRect.containsR_join_mono (a b x : SkIRect)
    (h : a.containsR x = true) : (SkIRect.join a b).containsR x = true := by
  rw [SkIRect.containsR_iff] at h
  unfold SkIRect.join
  split
  · rw [SkIRect.containsR_iff]; exact h
  · rename_i hbe
    split
    · rename_i hae
      rw [SkIRect.isEmpty_iff] at hae
      rw [SkIRect.containsR_iff]
      rcases h with h | h
      · left; exact h
      · left; omega
    · rw [SkIRect.containsR_iff]
      rcases h with h | h
      · left; exact h
      · obtain ⟨h1, h2, h3, h4⟩ := h
        right
        exact ⟨inf_le_left.trans h1, inf_le_left.trans h2,
               h3.trans le_sup_left, h4.trans le_sup_left⟩

theorem DamageArea.add_contains (a : SkIRect) (r : SkRect) :
    (DamageArea.add a r).containsR r.roundOut = true :=
  SkIRect.containsR_join_right a r.roundOut

theorem DamageArea.add_mono (a : SkIRect) (r : SkRect) (x : SkIRect)
    (h : a.containsR x = true) : (DamageArea.add a r).containsR x = true :=
  SkIRect.containsR_join_mono a r.roundOut x h

/-- Folding damage additions preserves containment. -/
theorem foldl_add_mono (evs : List DamageEvent) (init x : SkIRect)
    (h : init.containsR x = true) :
    ((evs.foldl (fun a e => DamageArea.add a e.rect) init)).containsR x
      = true := by
  induction evs generalizing init with
  | nil => exact h
  | cons e rest ih => exact ih _ (DamageArea.add_mono _ _ _ h)

/-- The fold of damage additions contains every added rectangle. -/
theorem foldl_add_contains (evs : List DamageEvent) (init : SkIRect)
    (ev : DamageEvent) (hm : ev ∈ evs) :
    ((evs.foldl (fun a e => DamageArea.add a e.rect) init)).containsR
      ev.rect.roundOut = true := by
  induction evs generalizing init with
  | nil => cases hm
  | cons e rest ih =>
    rcases List.mem_cons.mp hm with h | h
    · subst h
      exact foldl_add_mono rest _ _ (DamageArea.add_contains init ev.rect)
    · exact ih _ h

/-- A delegate pass only grows the damage area. -/
theorem delegatePass_mono (δ : Nat → SkRect → SkRect)
    (ds : List DelegateRecord) (area x : SkIRect) (good : Bool)
    (h : area.containsR x = true) :
    (delegatePass δ ds area good).2.1.containsR x = true := by
  induction ds generalizing area good with
  | nil => exact h
  | cons d rest ih =>
    simp only [delegatePass]
    split
    · exact ih _ _ h
    · exact ih _ _ (DamageArea.add_mono _ _ _ h)

/-- Delegate convergence only grows the damage area. -/
theorem finishDelegates_mono (δ : Nat → SkRect → SkRect) (fuel : Nat)
    (ds : List DelegateRecord) (area x : SkIRect)
    (h : area.containsR x = true) :
    (finishDelegates δ fuel ds area).2.containsR x = true := by
  induction fuel generalizing ds area with
  | zero => exact h
  | succ fuel ih =>
    unfold finishDelegates
    split
    · rename_i ds2 area2 heq
      have h2 := delegatePass_mono δ ds area x true h
      rw [heq] at h2
      exact h2
    · rename_i ds2 area2 heq
      have h2 := delegatePass_mono δ ds area x true h
      rw [heq] at h2
      exact ih ds2 area2 h2

/-- With no registered delegates, delegate convergence is a no-op. -/
theorem finishDelegates_nil (δ : Nat → SkRect → SkRect) (fuel : Nat)
    (area : SkIRect) : finishDelegates δ fuel [] area = ([], area) := by
  cases fuel <;> simp [finishDelegates, delegatePass]

/-- Inversion of a successful `FinishFrame`. -/
theorem FinishFrame_some (γ : Nat → Nat → Nat → Bool)
    (δ : Nat → SkRect → SkRect) (fuel : Nat) (s : DamageContext)
    (r : DamageResult) (st : DamageContext)
    (h : FinishFrame γ δ fuel s = some (r, st)) :
    frameEvents γ s = some r.trace ∧
    r.area = (finishDelegates δ fuel s.delegates
      (r.trace.foldl (fun a e => DamageArea.add a e.rect)
        SkIRect.MakeEmpty)).2 ∧
    r.frame_description = { layer_tree_size := s.current_layer_tree_size,
                            entries := buildEntries γ 0 [] s.layer_entries } ∧
    st = { previous_frame := none, current_layer_tree_size := ⟨0, 0⟩,
           layer_entries := [], delegates := [] } := by
  unfold FinishFrame at h
  rcases hev : frameEvents γ s with _ | evs
  · rw [hev] at h
    exact absurd h (by simp)
  · rw [hev] at h
    simp only [Option.some.injEq, Prod.mk.injEq] at h
    obtain ⟨hr, hst⟩ := h
    subst hr
    subst hst
    exact ⟨rfl, rfl, rfl, rfl⟩

/-- Membership in the set after an insertion. -/
theorem insertLC_mem (γ : Nat → Nat → Nat → Bool)
    (l : List LayerContribution) (x e : LayerContribution)
    (h : e ∈ insertLC γ l x) : e ∈ l ∨ e = x := by
  unfold insertLC at h
  split at h
  · exact Or.inl h
  · rcases List.mem_append.mp h with h | h
    · exact Or.inl h
    · exact Or.inr (List.mem_singleton.mp h)

/-- Every record in the built snapshot set comes from a non-empty-bounds
element of `layer_entries_` and carries that element's index (offset by the
starting index of the walk) as its paint order. -/
theorem buildEntries_mem (γ : Nat → Nat → Nat → Bool)
    (l : List LayerContribution) (i : Nat) (acc : List LayerContribution)
    (e : LayerContribution) (h : e ∈ buildEntries γ i acc l) :
    e ∈ acc ∨ ∃ j : Nat, ∃ hj : j < l.length,
      e = { l.get ⟨j, hj⟩ with paint_order := Int.ofNat (i + j) } ∧
      (l.get ⟨j, hj⟩).paint_bounds.isEmpty = false := by
  induction l generalizing i acc with
  | nil => exact Or.inl h
  | cons a rest ih =>
    rcases ih (i + 1) _ h with hacc | ⟨j, hj, hje, hne⟩
    · by_cases hemp : a.paint_bounds.isEmpty = true
      · rw [if_pos hemp] at hacc
        exact Or.inl hacc
      · rw [if_neg hemp] at hacc
        rcases insertLC_mem γ acc _ e hacc with hmem | hnew
        · exact Or.inl hmem
        · refine Or.inr ⟨0, by simp, ?_, ?_⟩
          · simpa [Nat.add_zero] using hnew
          · simpa using Bool.eq_false_iff.mpr hemp
    · refine Or.inr ⟨j + 1, by simpa using Nat.succ_lt_succ hj, ?_, ?_⟩
      · simpa [Nat.add_assoc, Nat.add_comm 1 j] using hje
      · simpa using hne

/-! ## Claim theorems -/

/-- Claim C1: whenever the previous frame description is null, or its output
size differs from the current one, `FinishFrame` performs no per-layer
diffing — the damage-add trace is exactly the single full-output rectangle
with source this-frame — and, when no delegates are registered, the returned
damage area is the full output rectangle: it contains and is contained in
the rounded full-output rectangle, and for a non-degenerate output size it
is exactly the rectangle from `(0,0)` to `(width,height)`. -/
theorem claim1_full_damage (γ : Nat → Nat → Nat → Bool)
    (δ : Nat → SkRect → SkRect) (fuel : Nat) (s : DamageContext)
    (hprev : s.previous_frame = none ∨
      ∃ pf, s.previous_frame = some pf ∧
        pf.layer_tree_size ≠ s.current_layer_tree_size) :
    ∃ r st, FinishFrame γ δ fuel s = some (r, st) ∧
      r.trace = [fullFrameEvent s.current_layer_tree_size] ∧
      (s.delegates = [] →
        r.area.containsR
          (SkRect.MakeIWH s.current_layer_tree_size.width
            s.current_layer_tree_size.height).roundOut = true ∧
        ((SkRect.MakeIWH s.current_layer_tree_size.width
            s.current_layer_tree_size.height).roundOut).containsR r.area
          = true ∧
        (s.current_layer_tree_size.isEmpty = false →
          r.area = ⟨0, 0, s.current_layer_tree_size.width,
                    s.current_layer_tree_size.height⟩)) := by
  have hev : frameEvents γ s =
      some [fullFrameEvent s.current_layer_tree_size] := by
    unfold frameEvents
    rcases hprev with h | ⟨pf, hpf, hne⟩
    · rw [h]
    · rw [hpf]
      simp [hne]
  unfold FinishFrame
  rw [hev]
  refine ⟨_, _, rfl, rfl, ?_⟩
  intro hdel
  rw [hdel]
  show (finishDelegates δ fuel []
        (List.foldl (fun a e => DamageArea.add a e.rect) SkIRect.MakeEmpty
          [fullFrameEvent s.current_layer_tree_size])).2.containsR _ = true ∧
    SkIRect.containsR _ (finishDelegates δ fuel [] _).2 = true ∧ _
  rw [finishDelegates_nil]
  have harea : List.foldl (fun a e => DamageArea.add a e.rect)
      SkIRect.MakeEmpty [fullFrameEvent s.current_layer_tree_size]
      = DamageArea.add SkIRect.MakeEmpty
          (SkRect.MakeIWH s.current_layer_tree_size.width
            s.current_layer_tree_size.height) := rfl
  have h2 : (SkIRect.MakeEmpty).isEmpty = true := by decide
  by_cases hre : ((SkRect.MakeIWH s.current_layer_tree_size.width
      s.current_layer_tree_size.height).roundOut).isEmpty = true
  · have hadd : DamageArea.add SkIRect.MakeEmpty
        (SkRect.MakeIWH s.current_layer_tree_size.width
          s.current_layer_tree_size.height) = SkIRect.MakeEmpty := by
      unfold DamageArea.add SkIRect.join
      rw [if_pos hre]
    have hszt : s.current_layer_tree_size.isEmpty = true := by
      simp [SkRect.MakeIWH, SkRect.roundOut, SkIRect.isEmpty] at hre
      simp [SkISize.isEmpty]
      omega
    rw [harea, hadd]
    exact ⟨SkIRect.containsR_of_empty _ _ hre,
           SkIRect.containsR_of_empty _ _ h2,
           fun hf => absurd hszt (by rw [hf]; simp)⟩
  · have hadd : DamageArea.add SkIRect.MakeEmpty
        (SkRect.MakeIWH s.current_layer_tree_size.width
          s.current_layer_tree_size.height)
        = (SkRect.MakeIWH s.current_layer_tree_size.width
            s.current_layer_tree_size.height).roundOut := by
      unfold DamageArea.add SkIRect.join
      rw [if_neg hre, if_pos h2]
    rw [harea, hadd]
    exact ⟨SkIRect.containsR_self _, SkIRect.containsR_self _, fun _ => rfl⟩

/-- Claim C1 witness: a concrete no-history frame of size `3 × 2` yields
exactly the full-output damage rectangle and the single full-frame event. -/
theorem claim1_full_damage_witness :
    ∃ r st, FinishFrame gId dZero 1
        { previous_frame := none, current_layer_tree_size := ⟨3, 2⟩,
          layer_entries := [], delegates := [] } = some (r, st) ∧
      r.trace = [fullFrameEvent ⟨3, 2⟩] ∧ r.area = ⟨0, 0, 3, 2⟩ := by
  obtain ⟨r, st, h1, h2, h3⟩ :=
    claim1_full_damage gId dZero 1
      { previous_frame := none, current_layer_tree_size := ⟨3, 2⟩,
        layer_entries := [], delegates := [] } (Or.inl rfl)
  exact ⟨r, st, h1, h2, (h3 rfl).2.2 (by decide)⟩

/-- Claim C4: two content-unchanged layers `A` (bounds `[0,0,10,10]`) and
`B` that swap paint order between two same-size frames.  When `B` has
bounds `[5,5,15,15]` (overlapping `A`), the second frame's damage is the
union `[0,0,15,15]` of the two bounds; when `B` has bounds `[20,20,30,30]`
(disjoint from `A`), the second frame's damage is empty. -/
theorem claim4_reorder :
    twoFrames gId dZero ⟨20, 20⟩
        [mkApp 1 ⟨0, 0, 10, 10⟩, mkApp 2 ⟨5, 5, 15, 15⟩]
        [mkApp 2 ⟨5, 5, 15, 15⟩, mkApp 1 ⟨0, 0, 10, 10⟩]
      = some ⟨0, 0, 15, 15⟩ ∧
    twoFrames gId dZero ⟨40, 40⟩
        [mkApp 1 ⟨0, 0, 10, 10⟩, mkApp 2 ⟨20, 20, 30, 30⟩]
        [mkApp 2 ⟨20, 20, 30, 30⟩, mkApp 1 ⟨0, 0, 10, 10⟩]
      = some SkIRect.MakeEmpty := by
  constructor <;> rfl

/-- Claim C5 counterexample: a frame whose first appended record has empty
bounds and whose second has bounds `[0,0,5,5]`.  The snapshot retains a
single record (position `0` in the final bounds-non-empty sequence), but
its `paint_order` is `1` — the index in the full append sequence — so paint
orders of retained records are not `0..k-1` of the final sequence. -/
theorem claim5_counterexample :
    ((runFrame gId dZero 1 ⟨10, 10⟩
        [mkApp 3 ⟨0, 0, 0, 0⟩, mkApp 1 ⟨0, 0, 5, 5⟩] none
        DamageContext.initial).map
      (fun r => r.1.frame_description.entries.map
        LayerContribution.paint_order)) = some [1] ∧
    ((1 : Int) = 0) = False := by
  constructor
  · rfl
  · simp

/-- Claim C5 (amended): each retained record's `paintOrder` equals its index
in the frame's full append sequence (empty-bounds records included), the
record's remaining fields being those of the append at that index, whose
bounds are non-empty; and `LayerContributionHandle::PaintOrder()` returns
exactly that append index for the handle produced by the append. -/
theorem claim5_paint_order (γ : Nat → Nat → Nat → Bool)
    (δ : Nat → SkRect → SkRect) (fuel : Nat) (s : DamageContext)
    (r : DamageResult) (st : DamageContext)
    (hf : FinishFrame γ δ fuel s = some (r, st)) :
    (∀ e ∈ r.frame_description.entries, ∃ j : Nat,
      ∃ hj : j < s.layer_entries.length,
        e = { s.layer_entries.get ⟨j, hj⟩ with paint_order := Int.ofNat j } ∧
        (s.layer_entries.get ⟨j, hj⟩).paint_bounds.isEmpty = false) ∧
    (∀ (s2 : DamageContext) (layer comparator : Nat)
        (matrix : SkRect → SkRect) (paint_bounds : SkRect)
        (preroll : PrerollContext),
      s2.current_layer_tree_size.isEmpty = false →
      ((s2.AddLayerContribution layer comparator matrix paint_bounds
          preroll).1).PaintOrder = Int.ofNat s2.layer_entries.length) := by
  obtain ⟨-, -, hfd, -⟩ := FinishFrame_some γ δ fuel s r st hf
  constructor
  · intro e he
    rw [hfd] at he
    rcases buildEntries_mem γ s.layer_entries 0 [] e he with hacc | ⟨j, hj, hje, hne⟩
    · cases hacc
    · exact ⟨j, hj, by simpa using hje, hne⟩
  · intro s2 layer comparator matrix paint_bounds preroll hne
    unfold DamageContext.AddLayerContribution
    rw [if_neg (by simp [hne])]
    rfl

/-- Claim C5 witness: a two-append frame; the second record is retained with
paint order `1`, matching the fields of append index `1`. -/
theorem claim5_paint_order_witness :
    (∀ e ∈ resultC5.frame_description.entries, ∃ j : Nat,
      ∃ hj : j < stateC5.layer_entries.length,
        e = { stateC5.layer_entries.get ⟨j, hj⟩ with
                paint_order := Int.ofNat j } ∧
        (stateC5.layer_entries.get ⟨j, hj⟩).paint_bounds.isEmpty = false) ∧
    (∀ (s2 : DamageContext) (layer comparator : Nat)
        (matrix : SkRect → SkRect) (paint_bounds : SkRect)
        (preroll : PrerollContext),
      s2.current_layer_tree_size.isEmpty = false →
      ((s2.AddLayerContribution layer comparator matrix paint_bounds
          preroll).1).PaintOrder = Int.ofNat s2.layer_entries.length) :=
  claim5_paint_order gId dZero 1 stateC5 resultC5
    ⟨none, ⟨0, 0⟩, [], []⟩ (by rfl)

/-- Claim C6 counterexample: `InitFrame` does not clear the in-progress
contribution list: starting from a state holding one contribution,
the list still holds it after `InitFrame` returns. -/
theorem claim6_counterexample :
    (DamageContext.InitFrame
        { previous_frame := none, current_layer_tree_size := ⟨7, 7⟩,
          layer_entries := [⟨⟨0, 0, 5, 5⟩, 1, 0, [], 0⟩], delegates := [] }
        ⟨9, 9⟩ none).layer_entries = [⟨⟨0, 0, 5, 5⟩, 1, 0, [], 0⟩] ∧
    ([⟨⟨0, 0, 5, 5⟩, 1, 0, [], 0⟩] = ([] : List LayerContribution)) = False := by
  constructor
  · rfl
  · simp

/-- Claim C6 (amended): after `InitFrame(outputSize, previousSnapshot)`, the
delegate record list is empty, the stored output size equals `outputSize`
and the stored previous-frame reference equals `previousSnapshot`; the
in-progress contribution list is left unchanged (the protocol relies on the
preceding `FinishFrame` having cleared it). -/
theorem claim6_init_frame (s : DamageContext) (sz : SkISize)
    (prev : Option FrameDescription) :
    (s.InitFrame sz prev).delegates = [] ∧
    (s.InitFrame sz prev).current_layer_tree_size = sz ∧
    (s.InitFrame sz prev).previous_frame = prev ∧
    (s.InitFrame sz prev).layer_entries = s.layer_entries :=
  ⟨rfl, rfl, rfl, rfl⟩

/-- Claim C8: equal contributions hash equal, and the hash depends only on
the four bounds fields and the comparator identity (it ignores mutators,
layer and paint order). -/
theorem claim8_hash (γ : Nat → Nat → Nat → Bool) :
    (∀ a b : LayerContribution, lcEq γ a b = true → a.hash = b.hash) ∧
    (∀ a b : LayerContribution, a.paint_bounds = b.paint_bounds →
      a.comparator = b.comparator → a.hash = b.hash) := by
  have hdep : ∀ a b : LayerContribution, a.paint_bounds = b.paint_bounds →
      a.comparator = b.comparator → a.hash = b.hash := by
    intro a b hpb hc
    unfold LayerContribution.hash
    rw [hpb, hc]
  refine ⟨?_, hdep⟩
  intro a b heq
  simp only [lcEq, Bool.and_eq_true, decide_eq_true_eq] at heq
  exact hdep a b heq.1.1.2 heq.1.1.1

/-- Claim C8 witness: two records with different layers and mutator-free
state, equal under a comparator that accepts the pair, hash equal. -/
theorem claim8_hash_witness :
    LayerContribution.hash ⟨⟨1, 2, 8, 9⟩, 1, 5, [], 0⟩ =
      LayerContribution.hash ⟨⟨1, 2, 8, 9⟩, 2, 5, [], 3⟩ :=
  (claim8_hash gAll).1 ⟨⟨1, 2, 8, 9⟩, 1, 5, [], 0⟩ ⟨⟨1, 2, 8, 9⟩, 2, 5, [], 3⟩
    (by decide)

/-- Claim C9: an `append` made while the current output size is empty
creates no record (the whole state is unchanged) and returns the null
handle (no back-pointer, invalid index). -/
theorem claim9_empty_size (s : DamageContext) (layer comparator : Nat)
    (matrix : SkRect → SkRect) (paint_bounds : SkRect)
    (preroll : PrerollContext)
    (h : s.current_layer_tree_size.isEmpty = true) :
    s.AddLayerContribution layer comparator matrix paint_bounds preroll
      = (LayerContributionHandle.null, s) := by
  unfold DamageContext.AddLayerContribution
  rw [if_pos h]

/-- Claim C9 witness: an `append` on the initial (empty-size) state. -/
theorem claim9_empty_size_witness :
    DamageContext.initial.AddLayerContribution 1 0 (fun r => r)
        ⟨0, 0, 5, 5⟩ ⟨⟨0, 0, 9, 9⟩, []⟩
      = (LayerContributionHandle.null, DamageContext.initial) :=
  claim9_empty_size DamageContext.initial 1 0 (fun r => r)
    ⟨0, 0, 5, 5⟩ ⟨⟨0, 0, 9, 9⟩, []⟩ (by decide)

/-! ## Set-insertion invariants and the no-change diff -/

/-- `lcEq` never inspects the first argument's `paint_order` either. -/
theorem lcEq_paint_order_left (γ : Nat → Nat → Nat → Bool)
    (a b : LayerContribution) (n : Int) :
    lcEq γ { a with paint_order := n } b = lcEq γ a b := rfl

/-- Insertion preserves the invariant that no later element equals an
earlier one (the direction in which `insert` tests its guard). -/
theorem insertLC_pairwise (γ : Nat → Nat → Nat → Bool)
    (l : List LayerContribution) (e : LayerContribution)
    (h : List.Pairwise (fun a b => lcEq γ b a = false) l) :
    List.Pairwise (fun a b => lcEq γ b a = false) (insertLC γ l e) := by
  unfold insertLC
  split
  · exact h
  · rename_i hany
    rw [List.pairwise_append]
    refine ⟨h, List.pairwise_singleton _ _, ?_⟩
    intro a ha b hb
    rw [List.mem_singleton.mp hb]
    have := List.any_eq_false.mp (Bool.not_eq_true _ ▸ hany) a ha
    simpa using this

/-- The built snapshot set satisfies the pairwise invariant. -/
theorem buildEntries_pairwise (γ : Nat → Nat → Nat → Bool)
    (l : List LayerContribution) (i : Nat) (acc : List LayerContribution)
    (h : List.Pairwise (fun a b => lcEq γ b a = false) acc) :
    List.Pairwise (fun a b => lcEq γ b a = false) (buildEntries γ i acc l) := by
  induction l generalizing i acc with
  | nil => exact h
  | cons a rest ih =>
    show List.Pairwise _ (buildEntries γ (i + 1) _ rest)
    apply ih
    split
    · exact h
    · exact insertLC_pairwise γ acc _ h

/-- In a set satisfying the pairwise invariant, looking up a member finds
that member itself. -/
theorem findLC_self (γ : Nat → Nat → Nat → Bool)
    (E : List LayerContribution) (e : LayerContribution)
    (hpw : List.Pairwise (fun a b => lcEq γ b a = false) E) (he : e ∈ E) :
    findLC γ E e = some e := by
  induction E with
  | nil => cases he
  | cons a rest ih =>
    rw [List.pairwise_cons] at hpw
    rcases List.mem_cons.mp he with h | h
    · subst h
      simp [findLC, List.find?, lcEq_refl]
    · have hfa : lcEq γ e a = false := hpw.1 e h
      have := ih hpw.2 h
      simpa [findLC, List.find?, hfa] using this

/-- When every current entry finds an equivalent previous entry equal to
itself, the first diff loop emits no events and collects both matching
lists as the whole entry sequence. -/
theorem diffStep_self (γ : Nat → Nat → Nat → Bool)
    (pfE : List LayerContribution) (cur : List LayerContribution)
    (h : ∀ l ∈ cur, findLC γ pfE l = some l) :
    diffStep γ pfE cur = ([], cur, cur) := by
  induction cur with
  | nil => rfl
  | cons a rest ih =>
    have ha := h a (List.mem_cons_self a rest)
    have hrest := ih (fun l hl => h l (List.mem_cons_of_mem a hl))
    simp [diffStep, hrest, ha]

/-- When every previous entry has an equivalent in the current set, the
second diff loop emits no events. -/
theorem prevUnmatched_nil (γ : Nat → Nat → Nat → Bool)
    (entries : List LayerContribution) (pfE : List LayerContribution)
    (h : ∀ p ∈ pfE, ∃ q, findLC γ entries p = some q) :
    prevUnmatched γ entries pfE = [] := by
  induction pfE with
  | nil => rfl
  | cons a rest ih =>
    obtain ⟨q, hq⟩ := h a (List.mem_cons_self a rest)
    have hrest := ih (fun p hp => h p (List.mem_cons_of_mem a hp))
    simp [prevUnmatched, hq, hrest]

/-- The reordering pass on two identical sequences matches every trailing
pair immediately and emits no damage. -/
theorem reorderLoop_self (γ : Nat → Nat → Nat → Bool)
    (L : List LayerContribution) : reorderLoop γ L L = some [] := by
  induction L with
  | nil => rfl
  | cons p ps ih =>
    simp [reorderLoop, scanCur, lcEq_refl, ih]

/-- Diffing a pairwise-invariant set against itself yields no damage. -/
theorem diffEvents_self (γ : Nat → Nat → Nat → Bool)
    (E : List LayerContribution)
    (hpw : List.Pairwise (fun a b => lcEq γ b a = false) E) :
    diffEvents γ E E = some [] := by
  have hself : ∀ l ∈ E, findLC γ E l = some l :=
    fun l hl => findLC_self γ E l hpw hl
  unfold diffEvents
  rw [diffStep_self γ E E hself,
      prevUnmatched_nil γ E E (fun p hp => ⟨p, hself p hp⟩)]
  simp [reorderLoop_self]

/-! ## State threading through the append phase -/

/-- One `append` leaves the output size, the previous-frame reference and
the delegate list unchanged. -/
theorem applyAppend_fields (s : DamageContext) (a : AppendArgs) :
    (applyAppend s a).current_layer_tree_size = s.current_layer_tree_size ∧
    (applyAppend s a).previous_frame = s.previous_frame ∧
    (applyAppend s a).delegates = s.delegates := by
  unfold applyAppend DamageContext.AddLayerContribution
  split
  · exact ⟨rfl, rfl, rfl⟩
  · exact ⟨rfl, rfl, rfl⟩

/-- A sequence of `append`s leaves the output size, the previous-frame
reference and the delegate list unchanged. -/
theorem foldl_applyAppend_fields (apps : List AppendArgs) (s : DamageContext) :
    (apps.foldl applyAppend s).current_layer_tree_size
      = s.current_layer_tree_size ∧
    (apps.foldl applyAppend s).previous_frame = s.previous_frame ∧
    (apps.foldl applyAppend s).delegates = s.delegates := by
  induction apps generalizing s with
  | nil => exact ⟨rfl, rfl, rfl⟩
  | cons a rest ih =>
    obtain ⟨h1, h2, h3⟩ := ih (applyAppend s a)
    obtain ⟨g1, g2, g3⟩ := applyAppend_fields s a
    exact ⟨h1.trans g1, h2.trans g2, h3.trans g3⟩

/-- The contribution list produced by a sequence of `append`s depends only
on the starting contribution list and the output size. -/
theorem foldl_applyAppend_entries (apps : List AppendArgs)
    (s s' : DamageContext)
    (hsz : s.current_layer_tree_size = s'.current_layer_tree_size)
    (hent : s.layer_entries = s'.layer_entries) :
    (apps.foldl applyAppend s).layer_entries
      = (apps.foldl applyAppend s').layer_entries := by
  induction apps generalizing s s' with
  | nil => exact hent
  | cons a rest ih =>
    simp only [List.foldl_cons]
    apply ih
    · rw [(applyAppend_fields s a).1, (applyAppend_fields s' a).1, hsz]
    · cases hb : s'.current_layer_tree_size.isEmpty
      · have hb' : s.current_layer_tree_size.isEmpty = false := by
          rw [hsz, hb]
        simp [applyAppend, DamageContext.AddLayerContribution, hb, hb', hent]
      · have hb' : s.current_layer_tree_size.isEmpty = true := by
          rw [hsz, hb]
        simp [applyAppend, DamageContext.AddLayerContribution, hb, hb', hent]

/-- Claim C2: two consecutive frames with the same output size and
identical append sequences, the second initialised with the first frame's
snapshot (and, per the protocol, run on the state the first `finish` left
behind, whose contribution list the first frame had started from empty):
the second `finish` returns an empty damage area, and indeed adds no
damage rectangle at all. -/
theorem claim2_no_change (γ : Nat → Nat → Nat → Bool)
    (δ : Nat → SkRect → SkRect) (f1 f2 : Nat) (sz : SkISize)
    (apps : List AppendArgs) (prev : Option FrameDescription)
    (s0 : DamageContext) (h0 : s0.layer_entries = [])
    (r1 : DamageResult) (s1 : DamageContext)
    (h1 : runFrame γ δ f1 sz apps prev s0 = some (r1, s1)) :
    ∃ r2 s2, runFrame γ δ f2 sz apps (some r1.frame_description) s1
        = some (r2, s2) ∧
      r2.area = SkIRect.MakeEmpty ∧ r2.trace = [] := by
  unfold runFrame at h1
  obtain ⟨-, -, hfd1, hst1⟩ := FinishFrame_some γ δ f1 _ r1 s1 h1
  obtain ⟨hsz1, -, -⟩ :=
    foldl_applyAppend_fields apps (s0.InitFrame sz prev)
  -- the first frame's snapshot
  have hfdsz : r1.frame_description.layer_tree_size = sz := by
    rw [hfd1]
    exact hsz1
  have hfdent : r1.frame_description.entries = buildEntries γ 0 []
      (apps.foldl applyAppend (s0.InitFrame sz prev)).layer_entries := by
    rw [hfd1]
  subst hst1
  -- the second frame's in-progress state
  obtain ⟨hsz2, hpf2, hdel2⟩ := foldl_applyAppend_fields apps
    (DamageContext.InitFrame
      { previous_frame := none, current_layer_tree_size := ⟨0, 0⟩,
        layer_entries := [], delegates := [] } sz
      (some r1.frame_description))
  have hent2 : (apps.foldl applyAppend
      (DamageContext.InitFrame
        { previous_frame := none, current_layer_tree_size := ⟨0, 0⟩,
          layer_entries := [], delegates := [] } sz
        (some r1.frame_description))).layer_entries
      = (apps.foldl applyAppend (s0.InitFrame sz prev)).layer_entries := by
    apply foldl_applyAppend_entries
    · rfl
    · exact h0.symm
  have hpw := buildEntries_pairwise γ
    (apps.foldl applyAppend (s0.InitFrame sz prev)).layer_entries 0 []
    (List.Pairwise.nil)
  have hdel2' : (apps.foldl applyAppend
      (DamageContext.InitFrame
        { previous_frame := none, current_layer_tree_size := ⟨0, 0⟩,
          layer_entries := [], delegates := [] } sz
        (some r1.frame_description))).delegates = [] := hdel2.trans rfl
  unfold runFrame FinishFrame
  have hev2 : frameEvents γ
      (apps.foldl applyAppend
        (DamageContext.InitFrame
          { previous_frame := none, current_layer_tree_size := ⟨0, 0⟩,
            layer_entries := [], delegates := [] } sz
          (some r1.frame_description))) = some [] := by
    unfold frameEvents
    rw [hpf2]
    show (if r1.frame_description.layer_tree_size = _ then _ else _) = _
    rw [hfdsz, hsz2]
    show (if sz = sz then _ else _) = _
    rw [if_pos rfl, hent2, hfdent]
    exact diffEvents_self γ _ hpw
  rw [hev2, hdel2']
  refine ⟨_, _, rfl, ?_, rfl⟩
  exact congrArg Prod.snd (finishDelegates_nil δ f2 SkIRect.MakeEmpty)

/-- Claim C2 witness: a concrete first frame (size `10 × 10`, one append)
whose snapshot feeds an identical second frame. -/
theorem claim2_no_change_witness :
    ∃ r2 s2, runFrame gId dZero 1 ⟨10, 10⟩ [mkApp 1 ⟨0, 0, 5, 5⟩]
        (some ({ layer_tree_size := ⟨10, 10⟩,
                 entries := [⟨⟨0, 0, 5, 5⟩, 1, 0, [], 0⟩] } : FrameDescription))
        { previous_frame := none, current_layer_tree_size := ⟨0, 0⟩,
          layer_entries := [], delegates := [] }
      = some (r2, s2) ∧
      r2.area = SkIRect.MakeEmpty ∧ r2.trace = [] :=
  claim2_no_change gId dZero 1 1 ⟨10, 10⟩ [mkApp 1 ⟨0, 0, 5, 5⟩] none
    DamageContext.initial rfl
    { trace := [fullFrameEvent ⟨10, 10⟩], area := ⟨0, 0, 10, 10⟩,
      frame_description := { layer_tree_size := ⟨10, 10⟩,
                             entries := [⟨⟨0, 0, 5, 5⟩, 1, 0, [], 0⟩] } }
    { previous_frame := none, current_layer_tree_size := ⟨0, 0⟩,
      layer_entries := [], delegates := [] }
    (by rfl)

/-! ## Membership of unmatched records in the damage trace -/

/-- A current entry with no equivalent previous record contributes its
this-frame damage event in the first diff loop. -/
theorem diffStep_unmatched (γ : Nat → Nat → Nat → Bool)
    (pfE : List LayerContribution) (cur : List LayerContribution)
    (l : LayerContribution) (hl : l ∈ cur)
    (hnone : findLC γ pfE l = none) :
    (⟨l.paint_bounds, DamageSource.kThisFrame, l.paint_order⟩ : DamageEvent)
      ∈ (diffStep γ pfE cur).1 := by
  induction cur with
  | nil => cases hl
  | cons a rest ih =>
    rcases List.mem_cons.mp hl with h | h
    · subst h
      simp only [diffStep, hnone]
      exact List.mem_cons_self _ _
    · rcases hfa : findLC γ pfE a with _ | p
      · simp only [diffStep, hfa]
        exact List.mem_cons_of_mem _ (ih h)
      · simp only [diffStep, hfa]
        exact ih h

/-- A previous entry with no equivalent current record contributes its
previous-frame damage event in the second diff loop. -/
theorem prevUnmatched_mem (γ : Nat → Nat → Nat → Bool)
    (entries : List LayerContribution) (pfE : List LayerContribution)
    (p : LayerContribution) (hp : p ∈ pfE)
    (hnone : findLC γ entries p = none) :
    (⟨p.paint_bounds, DamageSource.kPreviousFrame, p.paint_order⟩
      : DamageEvent) ∈ prevUnmatched γ entries pfE := by
  induction pfE with
  | nil => cases hp
  | cons a rest ih =>
    rcases List.mem_cons.mp hp with h | h
    · subst h
      simp only [prevUnmatched, hnone]
      exact List.mem_cons_self _ _
    · rcases hfa : findLC γ entries a with _ | q
      · simp only [prevUnmatched, hfa]
        exact List.mem_cons_of_mem _ (ih h)
      · simp only [prevUnmatched, hfa]
        exact ih h

/-- Claim C3: when `FinishFrame` performs per-layer diffing (previous
snapshot present with the same output size), every current record with no
equivalent in the previous snapshot adds its bounds to the damage trace
with source this-frame, every previous record with no equivalent in the
current set adds its bounds with source previous-frame, and every rectangle
in the trace is contained in the returned damage area (in particular, a
layer present in frame `N` and absent in frame `N+1` makes frame `N+1`'s
damage include its bounds). -/
theorem claim3_unmatched (γ : Nat → Nat → Nat → Bool)
    (δ : Nat → SkRect → SkRect) (fuel : Nat) (s : DamageContext)
    (pf : FrameDescription) (r : DamageResult) (st : DamageContext)
    (hp : s.previous_frame = some pf)
    (hsz : pf.layer_tree_size = s.current_layer_tree_size)
    (hf : FinishFrame γ δ fuel s = some (r, st)) :
    (∀ l ∈ buildEntries γ 0 [] s.layer_entries,
      (∀ x ∈ pf.entries, lcEq γ l x = false) →
      (⟨l.paint_bounds, DamageSource.kThisFrame, l.paint_order⟩
        : DamageEvent) ∈ r.trace) ∧
    (∀ p ∈ pf.entries,
      (∀ x ∈ buildEntries γ 0 [] s.layer_entries, lcEq γ p x = false) →
      (⟨p.paint_bounds, DamageSource.kPreviousFrame, p.paint_order⟩
        : DamageEvent) ∈ r.trace) ∧
    (∀ ev ∈ r.trace, r.area.containsR ev.rect.roundOut = true) := by
  obtain ⟨hev, harea, -, -⟩ := FinishFrame_some γ δ fuel s r st hf
  unfold frameEvents at hev
  simp only [hp] at hev
  rw [if_pos hsz] at hev
  unfold diffEvents at hev
  rcases hrl : reorderLoop γ
      (sortByPO (diffStep γ pf.entries
        (buildEntries γ 0 [] s.layer_entries)).2.1).reverse
      (sortByPO (diffStep γ pf.entries
        (buildEntries γ 0 [] s.layer_entries)).2.2).reverse
    with _ | revs
  · rw [hrl] at hev
    exact absurd hev (by simp)
  · rw [hrl] at hev
    simp only [Option.some.injEq] at hev
    have htr : r.trace =
        (diffStep γ pf.entries (buildEntries γ 0 [] s.layer_entries)).1 ++
        prevUnmatched γ (buildEntries γ 0 [] s.layer_entries) pf.entries ++
        revs := hev.symm
    refine ⟨?_, ?_, ?_⟩
    · intro l hl hnm
      rw [htr]
      refine List.mem_append.mpr (Or.inl (List.mem_append.mpr (Or.inl ?_)))
      refine diffStep_unmatched γ pf.entries _ l hl ?_
      exact List.find?_eq_none.mpr (fun x hx => by simp [hnm x hx])
    · intro p hp2 hnm
      rw [htr]
      refine List.mem_append.mpr (Or.inl (List.mem_append.mpr (Or.inr ?_)))
      refine prevUnmatched_mem γ _ pf.entries p hp2 ?_
      exact List.find?_eq_none.mpr (fun x hx => by simp [hnm x hx])
    · intro ev hevm
      rw [harea]
      exact finishDelegates_mono δ fuel s.delegates _ _
        (foldl_add_contains r.trace _ ev hevm)

/-- Claim C3 witness: removal damage for a concrete layer with bounds
`[1,1,4,4]` present in the previous frame and absent from the current one. -/
theorem claim3_unmatched_witness :
    (⟨⟨1, 1, 4, 4⟩, DamageSource.kPreviousFrame, 0⟩ : DamageEvent)
      ∈ resultC3.trace ∧
    resultC3.area.containsR (SkRect.roundOut ⟨1, 1, 4, 4⟩) = true := by
  have h := claim3_unmatched gId dZero 1 stateC3 pfC3 resultC3
    { previous_frame := none, current_layer_tree_size := ⟨0, 0⟩,
      layer_entries := [], delegates := [] } rfl rfl (by rfl)
  have hm := h.2.1 ⟨⟨1, 1, 4, 4⟩, 2, 0, [], 0⟩ (by decide) (by decide)
  exact ⟨hm, h.2.2 _ hm⟩

/-! ## Snapshot set semantics -/

/-- Splitting the snapshot-building walk at an append point. -/
theorem buildEntries_append (γ : Nat → Nat → Nat → Bool)
    (l1 l2 : List LayerContribution) (i : Nat)
    (acc : List LayerContribution) :
    buildEntries γ i acc (l1 ++ l2)
      = buildEntries γ (i + l1.length) (buildEntries γ i acc l1) l2 := by
  induction l1 generalizing i acc with
  | nil => simp [buildEntries]
  | cons a rest ih =>
    simp only [List.cons_append, buildEntries, List.append_eq]
    rw [ih]
    have hlen : i + 1 + rest.length = i + (a :: rest).length := by
      simp only [List.length_cons]
      omega
    rw [hlen]

/-- `FinishFrame` only looks at the previous frame, the size, the delegates
and the built snapshot set. -/
theorem FinishFrame_congr (γ : Nat → Nat → Nat → Bool)
    (δ : Nat → SkRect → SkRect) (fuel : Nat) (s s' : DamageContext)
    (h1 : s.previous_frame = s'.previous_frame)
    (h2 : s.current_layer_tree_size = s'.current_layer_tree_size)
    (h3 : s.delegates = s'.delegates)
    (h4 : buildEntries γ 0 [] s.layer_entries
      = buildEntries γ 0 [] s'.layer_entries) :
    FinishFrame γ δ fuel s = FinishFrame γ δ fuel s' := by
  unfold FinishFrame frameEvents
  rw [h1, h2, h3, h4]

/-- Claim C10: the snapshot produced by `FinishFrame` is a set keyed by the
contribution-equivalence predicate: no retained record is equivalent to an
earlier retained record, and a record appended after an equivalent record
of the same frame is dropped entirely — `FinishFrame` behaves exactly as if
the duplicate had never been appended, so it contributes no damage of its
own. -/
theorem claim10_duplicate (γ : Nat → Nat → Nat → Bool)
    (δ : Nat → SkRect → SkRect) (fuel : Nat) :
    (∀ (s : DamageContext) (r : DamageResult) (st : DamageContext),
      FinishFrame γ δ fuel s = some (r, st) →
      List.Pairwise (fun a b => lcEq γ b a = false)
        r.frame_description.entries) ∧
    (∀ (s : DamageContext) (l : List LayerContribution)
        (e : LayerContribution),
      s.layer_entries = l ++ [e] →
      (∃ x ∈ buildEntries γ 0 [] l, lcEq γ e x = true) →
      FinishFrame γ δ fuel s
        = FinishFrame γ δ fuel { s with layer_entries := l }) := by
  constructor
  · intro s r st hf
    obtain ⟨-, -, hfd, -⟩ := FinishFrame_some γ δ fuel s r st hf
    rw [hfd]
    exact buildEntries_pairwise γ s.layer_entries 0 [] List.Pairwise.nil
  · intro s l e hsl hex
    have hbuild : buildEntries γ 0 [] (l ++ [e]) = buildEntries γ 0 [] l := by
      rw [buildEntries_append]
      by_cases hemp : e.paint_bounds.isEmpty = true
      · simp [buildEntries, hemp]
      · simp only [buildEntries, Bool.not_eq_true] at hemp ⊢
        rw [hemp]
        show insertLC γ _ _ = _
        unfold insertLC
        rw [if_pos ?_]
        obtain ⟨x, hx, hxe⟩ := hex
        refine List.any_eq_true.mpr ⟨x, hx, ?_⟩
        rw [lcEq_paint_order_left]
        exact hxe
    apply FinishFrame_congr γ δ fuel
    · rfl
    · rfl
    · rfl
    · rw [hsl]
      exact hbuild

/-- Claim C10 witness: a frame appending the same record twice keeps one
snapshot record and computes the same result as without the duplicate. -/
theorem claim10_duplicate_witness :
    List.Pairwise (fun a b => lcEq gId b a = false)
      resultC10.frame_description.entries ∧
    FinishFrame gId dZero 1 stateC10
      = FinishFrame gId dZero 1 { stateC10 with layer_entries := [lcC10] } :=
  ⟨(claim10_duplicate gId dZero 1).1 stateC10 resultC10
      { previous_frame := none, current_layer_tree_size := ⟨0, 0⟩,
        layer_entries := [], delegates := [] } (by rfl),
   (claim10_duplicate gId dZero 1).2 stateC10 [lcC10] lcC10 rfl
      ⟨lcC10, by decide, by decide⟩⟩

/-! ## Termination of the reordering pass -/

/-- The inner backward scan succeeds whenever some remaining current
element is equivalent to the trailing previous element. -/
theorem scanCur_isSome (γ : Nat → Nat → Nat → Bool) (p : LayerContribution)
    (C : List LayerContribution) (h : ∃ c ∈ C, lcEq γ p c = true) :
    (scanCur γ p C).isSome = true := by
  induction C with
  | nil => simp at h
  | cons c cs ih =>
    simp only [scanCur]
    by_cases hpc : lcEq γ p c = true
    · rw [if_pos hpc]
      rfl
    · rw [if_neg hpc]
      obtain ⟨c2, hc2, he2⟩ := h
      have hc2' : c2 ∈ cs := by
        rcases List.mem_cons.mp hc2 with h | h
        · subst h
          exact absurd he2 hpc
        · exact h
      have hrec := ih ⟨c2, hc2', he2⟩
      rcases hsc : scanCur γ p cs with _ | ⟨evs, rest⟩
      · rw [hsc] at hrec
        simp at hrec
      · rfl

/-- The remainder left by the inner scan is drawn from the input. -/
theorem scanCur_subset (γ : Nat → Nat → Nat → Bool) (p : LayerContribution)
    (C : List LayerContribution) (evs : List DamageEvent)
    (rest : List LayerContribution) (h : scanCur γ p C = some (evs, rest)) :
    ∀ x ∈ rest, x ∈ C := by
  induction C generalizing evs rest with
  | nil => cases h
  | cons c cs ih =>
    simp only [scanCur] at h
    by_cases hpc : lcEq γ p c = true
    · rw [if_pos hpc] at h
      simp only [Option.some.injEq, Prod.mk.injEq] at h
      intro x hx
      rw [← h.2] at hx
      exact List.mem_cons_of_mem c hx
    · rw [if_neg hpc] at h
      rcases hsc : scanCur γ p cs with _ | ⟨evs2, rest2⟩ <;> rw [hsc] at h
      · cases h
      · simp only [Option.some.injEq, Prod.mk.injEq] at h
        intro x hx
        rw [← h.2] at hx
        rcases List.mem_cons.mp hx with hx | hx
        · subst hx
          exact List.mem_cons_self _ _
        · exact List.mem_cons_of_mem c (ih evs2 rest2 hsc x hx)

/-- Under a class labelling that captures equivalence against `p`, the
inner scan removes exactly the first element of `p`'s class. -/
theorem scanCur_map_cls (γ : Nat → Nat → Nat → Bool) (p : LayerContribution)
    (C : List LayerContribution) (evs : List DamageEvent)
    (rest : List LayerContribution) (cls : LayerContribution → Nat)
    (hpc : ∀ c ∈ C, (lcEq γ p c = true ↔ cls p = cls c))
    (h : scanCur γ p C = some (evs, rest)) :
    rest.map cls = (C.map cls).erase (cls p) := by
  induction C generalizing evs rest with
  | nil => cases h
  | cons c cs ih =>
    simp only [scanCur] at h
    by_cases hpc1 : lcEq γ p c = true
    · rw [if_pos hpc1] at h
      simp only [Option.some.injEq, Prod.mk.injEq] at h
      have hcc : cls p = cls c := (hpc c (List.mem_cons_self c cs)).mp hpc1
      rw [← h.2]
      simp [List.erase_cons, hcc.symm]
    · rw [if_neg hpc1] at h
      have hne : cls c ≠ cls p :=
        fun hcc => hpc1 ((hpc c (List.mem_cons_self c cs)).mpr hcc.symm)
      rcases hsc : scanCur γ p cs with _ | ⟨evs2, rest2⟩ <;> rw [hsc] at h
      · cases h
      · simp only [Option.some.injEq, Prod.mk.injEq] at h
        rw [← h.2]
        have hih := ih evs2 rest2
          (fun c2 hc2 => hpc c2 (List.mem_cons_of_mem c hc2)) hsc
        simp [List.erase_cons, hne, hih]

/-- Claim C7: the reordering pass terminates without running past the start
of either sequence whenever the two matched sequences are permutations of
the same set of equivalence classes, each class occurring once per
sequence (`cls` labels the classes and agrees with the contribution
equality predicate on the elements involved). -/
theorem claim7_termination (γ : Nat → Nat → Nat → Bool)
    (cls : LayerContribution → Nat) (P C : List LayerContribution)
    (hm : ∀ a ∈ P, ∀ b ∈ C, (lcEq γ a b = true ↔ cls a = cls b))
    (hperm : (P.map cls).Perm (C.map cls)) (hnd : (P.map cls).Nodup) :
    (reorderLoop γ P C).isSome = true := by
  induction P generalizing C with
  | nil => rfl
  | cons p ps ih =>
    have hmem : cls p ∈ C.map cls := hperm.mem_iff.mp (by simp)
    obtain ⟨c, hc, hcc⟩ := List.mem_map.mp hmem
    have hlc : lcEq γ p c = true :=
      (hm p (List.mem_cons_self p ps) c hc).mpr hcc.symm
    have hsome := scanCur_isSome γ p C ⟨c, hc, hlc⟩
    rcases hsc : scanCur γ p C with _ | ⟨evs, rest⟩
    · rw [hsc] at hsome
      simp at hsome
    · have hsub := scanCur_subset γ p C evs rest hsc
      have hcls := scanCur_map_cls γ p C evs rest cls
        (fun b hb => hm p (List.mem_cons_self p ps) b hb) hsc
      have hperm2 : (ps.map cls).Perm (rest.map cls) := by
        rw [hcls]
        have h1 : (C.map cls).Perm (cls p :: (C.map cls).erase (cls p)) :=
          List.perm_cons_erase hmem
        have h2 : (cls p :: ps.map cls).Perm
            (cls p :: (C.map cls).erase (cls p)) := by
          refine List.Perm.trans ?_ h1
          simpa using hperm
        exact h2.cons_inv
      have hnd2 : (ps.map cls).Nodup := by
        rw [List.map_cons] at hnd
        exact (List.nodup_cons.mp hnd).2
      have hrec := ih rest (fun a ha b hb =>
        hm a (List.mem_cons_of_mem p ha) b (hsub b hb)) hperm2 hnd2
      simp only [reorderLoop, hsc]
      rcases hrl : reorderLoop γ ps rest with _ | evs2
      · rw [hrl] at hrec
        simp at hrec
      · rfl

/-- Claim C7 witness: singleton matched sequences of the same class. -/
theorem claim7_termination_witness :
    (reorderLoop gAll [⟨⟨0, 0, 1, 1⟩, 0, 0, [], 0⟩]
      [⟨⟨0, 0, 1, 1⟩, 0, 0, [], 0⟩]).isSome = true :=
  claim7_termination gAll (fun _ => 0) _ _ (by decide)
    (List.Perm.refl _) (by decide)
